import Mathlib

/-!
Shallow embedding of `RelVal/o2dpg_release_validation.py` (release-validation
driver).  Pure fragments of the Python code become Lean functions; filesystem
and ROOT effects are represented by explicit inputs (directory listings, leaf
lists, draw results, child exit codes) and by explicit outcome records.
Machine integers do not overflow in the modelled code paths, so sizes are
modelled as exact rationals and indices as naturals.
-/

namespace RelVal

/-- Lexicographic comparison of two character lists by code point, mirroring
how Python compares strings with `<` and how `list.sort` orders them. -/
def charListLe : List Char → List Char → Bool
  | [], _ => true
  | _ :: _, [] => false
  | a :: as, b :: bs =>
    if a < b then true
    else if b < a then false
    else charListLe as bs

/-- The order used by `list.sort` on Python strings, as a proposition. -/
def strLeP (a b : String) : Prop := charListLe a.toList b.toList = true

instance strLeP.instDecidableRel : DecidableRel strLeP := fun a b =>
  inferInstanceAs (Decidable (charListLe a.toList b.toList = true))

/-- Python `list.sort()` on strings: the sorted permutation under `strLeP`.
Using insertion sort; the sorted permutation of a list of strings is unique,
so this agrees extensionally with the sort used by Python. -/
def sortStrs (l : List String) : List String := List.insertionSort strLeP l

/-- Whether `pat` occurs at the start of `s` (helper for substring tests). -/
def listStartsWith : List Char → List Char → Bool
  | [], _ => true
  | _ :: _, [] => false
  | a :: as, b :: bs => a == b && listStartsWith as bs

/-- Whether `pat` occurs contiguously anywhere in `s`. -/
def listContainsSub (pat : List Char) : List Char → Bool
  | [] => listStartsWith pat []
  | c :: cs => listStartsWith pat (c :: cs) || listContainsSub pat cs

/-- Python substring test `pat in hay` on strings. -/
def strContains (hay pat : String) : Bool := listContainsSub pat.toList hay.toList

/-- Python `s.lstrip(chr)` for the slash character: drop every leading `/`. -/
def lstripSlash (s : String) : String := ⟨s.toList.dropWhile (fun c => c == '/')⟩

/-- Line 84 of the source: `f[i] = f[i][len(d):].lstrip(chr)` with the slash
character, turning a glob result under directory `d` into a relative name. -/
def stripDir (d s : String) : String := lstripSlash ⟨s.toList.drop d.toList.length⟩

/-- Python `os.path.join(a, b)` for the inputs the script uses: `b` is a
relative name and `a` has no trailing slash, so the join inserts one slash. -/
def pjoin (a b : String) : String := a ++ "/" ++ b

/-- Embedding of `find_mutual_files(dirs, glob_pattern, grep=None)`.  The
filesystem is abstracted away: each input directory comes paired with the
list of full paths its recursive glob returned, so `pairs` is `zip(files,
dirs)` of the source with the glob already performed.  `grep = []` models
the falsy default `grep=None`.  The `list(set(a) & set(b))` step is modelled
by `filter` plus `dedup`; the set iteration order is unspecified in Python
and is irrelevant here because the result is sorted at the end. -/
def find_mutual_files (pairs : List (String × List String)) (grep : List String) :
    List String :=
  let files := pairs.map (fun p => (sortStrs p.2).map (stripDir p.1))
  match files with
  | [] => []
  | f0 :: rest =>
    let intersection := rest.foldl (fun acc f => (acc.filter (fun x => decide (x ∈ f))).dedup) f0
    let greped :=
      if grep.isEmpty then intersection
      else grep.flatMap (fun g => intersection.filter (fun ic => strContains ic g))
    sortStrs greped

/-- The pair list produced by `itertools.combinations(range(n), 2)`, in the
same lexicographic order. -/
def combos (n : ℕ) : List (ℕ × ℕ) :=
  (List.range n).flatMap (fun i => (List.range' (i + 1) (n - (i + 1))).map (fun j => (i, j)))

/-- Sequential pair loop of `exceeding_difference_thresh`.  Python raises
`ZeroDivisionError` at the first pair whose denominator `sizes[i2]` is zero,
which the embedding models as `none`; otherwise the flagged pairs are
accumulated in order.  The duplicated disjunct mirrors line 116 of the
source, which tests `diff / sizes[i2] > threshold` twice. -/
def edtGo (sizes : List ℚ) (threshold : ℚ) : List (ℕ × ℕ) → Option (List (ℕ × ℕ))
  | [] => some []
  | p :: rest =>
    let diff := |sizes.getD p.1 0 - sizes.getD p.2 0|
    if sizes.getD p.2 0 = 0 then none
    else if diff / sizes.getD p.2 0 > threshold ∨ diff / sizes.getD p.2 0 > threshold then
      (edtGo sizes threshold rest).map (fun l => p :: l)
    else edtGo sizes threshold rest

/-- Embedding of `exceeding_difference_thresh(sizes, threshold=0.1)`:
`some indices` when the loop completes, `none` when Python would raise a
`ZeroDivisionError`. -/
def exceeding_difference_thresh (sizes : List ℚ) (threshold : ℚ) : Option (List (ℕ × ℕ)) :=
  edtGo sizes threshold (combos sizes.length)

/-- Embedding of `has_severity(filename, severity)`: the parsed
`test_summary` object is an association list from severity label to item
names, and the loop over requested severities sets the result to true on any
present, non-empty entry (`if not names: continue`). -/
def has_severity (summary : List (String × List String)) (severity : List String) : Bool :=
  severity.foldl
    (fun ret s =>
      match summary.lookup s with
      | none => ret
      | some names => if names.isEmpty then ret else true)
    false

/-- Observable outcome of `rel_val_files(file1, file2, args, output_dir)`:
the function spawns the external ROOT process, waits for it, and then
executes `return 0`; the exit status of the child is ignored.  The child
exit status is an explicit input of the embedding. -/
structure RunFilesResult where
  spawned : Bool
  waited : Bool
  ret : Int
deriving DecidableEq

/-- Embedding of `rel_val_files`, abstracted over the exit status of the
spawned comparison process. -/
def rel_val_files (childExit : Int) : RunFilesResult :=
  let _ := childExit
  ⟨true, true, 0⟩

/-- One side of a prepared chain in `rel_val_ttree`: the grouped branch
appends a list of paths per pattern, while the ungrouped branch appends a
bare path string per file (which the downstream chain code then iterates). -/
inductive ChainSpec where
  | single (path : String)
  | group (paths : List String)
deriving DecidableEq

/-- Chain preparation of `rel_val_ttree(dir1, dir2, files, ...)`, lines
294 to 313 of the source: the triples `(to_be_chained1[i], to_be_chained2[i],
output_dirs[i])` in order.  `combine_patterns = []` models the falsy default
`combine_patterns=None`.  Note that the ungrouped branch of the source joins
both sides under `dir1`. -/
def rel_val_ttree_chains (dir1 dir2 : String) (files : List String)
    (combine_patterns : List String) : List (ChainSpec × ChainSpec × String) :=
  if combine_patterns.isEmpty then
    files.map (fun hf =>
      (ChainSpec.single (pjoin dir1 hf), ChainSpec.single (pjoin dir1 hf), hf ++ "_dir"))
  else
    combine_patterns.map (fun cp =>
      (ChainSpec.group ((files.filter (fun hf => strContains hf cp)).map (pjoin dir1)),
       ChainSpec.group ((files.filter (fun hf => strContains hf cp)).map (pjoin dir2)),
       cp ++ "_dir"))

/-- A TLeaf of a chain: its name and its type name. -/
structure Leaf where
  name : String
  typeName : String
deriving DecidableEq

/-- The accepted TLeaf type names, line 185 of the source. -/
def accepted_types : List String :=
  ["UInt_t", "Int_t", "Float_t", "Double_t", "Double32_t"]

/-- Branch-name extraction of `make_generic_histograms_from_chain`: keep the
names of leaves with accepted types, then sort them. -/
def acceptedSortedNames (leaves : List Leaf) : List String :=
  sortStrs ((leaves.filter (fun l => decide (l.typeName ∈ accepted_types))).map Leaf.name)

/-- Branch list actually iterated by `make_generic_histograms_from_chain`:
both sorted lists when they agree, otherwise their intersection
(`list(set & set)`, modelled by `filter` plus `dedup`). -/
def effectiveBranches (leaves1 leaves2 : List Leaf) : List String :=
  let b1 := acceptedSortedNames leaves1
  let b2 := acceptedSortedNames leaves2
  if b1 = b2 then b1 else (b1.filter (fun x => decide (x ∈ b2))).dedup

/-- Observable output of `make_generic_histograms_from_chain`, abstracted
over the result of `TChain::Draw` on each side (`-1` signals failure).  The
first component lists the branches written to the first output file: a
branch is skipped there exactly when the side-1 draw returns `-1`.  The
second component lists the entries written to the second output file, each
paired with whether the side-2 fill succeeded: the source resets the
histogram, calls `chain2.Draw` without checking its return value, and writes
the histogram unconditionally. -/
def make_generic_histograms_from_chain (leaves1 leaves2 : List Leaf)
    (draw1 draw2 : String → Int) : List String × List (String × Bool) :=
  let bs := effectiveBranches leaves1 leaves2
  let kept := bs.filter (fun b => decide (draw1 b ≠ -1))
  (kept, kept.map (fun b => (b, decide (draw2 b ≠ -1))))

/-- The five category flags of the `rel-val` subcommand. -/
structure SimFlags where
  with_hits : Bool
  with_tpctracks : Bool
  with_kine : Bool
  with_analysis : Bool
  with_qc : Bool
deriving DecidableEq

/-- The `any((...))` test on line 352 of the source. -/
def anyFlag (f : SimFlags) : Bool :=
  f.with_hits || f.with_tpctracks || f.with_kine || f.with_analysis || f.with_qc

/-- Flag defaulting of `rel_val_sim_dirs`: when every flag is disabled, all
five are enabled. -/
def effectiveFlags (f : SimFlags) : SimFlags :=
  if anyFlag f then f else ⟨true, true, true, true, true⟩

/-- The category sub-pipelines guarded by a flag record, in source order. -/
def catList (f : SimFlags) : List String :=
  (if f.with_hits then ["hits"] else []) ++
  (if f.with_tpctracks then ["tpctracks"] else []) ++
  (if f.with_kine then ["kine"] else []) ++
  (if f.with_analysis then ["analysis"] else []) ++
  (if f.with_qc then ["qc"] else [])

/-- The category sub-pipelines `rel_val_sim_dirs` executes for given flags. -/
def executedCategories (f : SimFlags) : List String := catList (effectiveFlags f)

/-- Filesystem facts `rel_val` and `is_sim_dir` consult, as predicates on
paths: `isfile`, `isdir`, whether `glob(path/pipeline*)` is non-empty, and
whether a path already exists (for the `makedirs` guard). -/
structure FS where
  isfile : String → Bool
  isdir : String → Bool
  pipelineGlobNonempty : String → Bool
  outExists : String → Bool

/-- Embedding of `is_sim_dir(path)`: a directory containing at least one
entry matching `pipeline*`. -/
def is_sim_dir (fs : FS) (path : String) : Bool :=
  fs.isdir path && fs.pipelineGlobNonempty path

/-- The function `rel_val` dispatches to. -/
inductive RelValFunc where
  | files
  | simDirs
deriving DecidableEq

/-- Observable outcome of `rel_val(args)` up to the dispatch.  On the error
branch the message is printed and `1` is returned before the `makedirs` call,
so the output directory is untouched.  On the run branch `retCode = none`
stands for whatever the dispatched function returns, and `touchedOutput`
records the `makedirs(args.output)` call, executed exactly when the output
path does not exist yet (the dispatched function then writes further content
under it). -/
structure RelValOutcome where
  printedInputError : Bool
  retCode : Option Int
  touchedOutput : Bool
  ranFunc : Option RelValFunc
deriving DecidableEq

/-- Embedding of `rel_val(args)`, lines 408 to 423 of the source: the two
`isfile` and `is_sim_dir` tests select the dispatched function (the second
test overrides the first), and a missing function is the error exit. -/
def rel_val (fs : FS) (in1 in2 out : String) : RelValOutcome :=
  let func0 : Option RelValFunc := none
  let func1 := if fs.isfile in1 && fs.isfile in2 then some RelValFunc.files else func0
  let func2 := if is_sim_dir fs in1 && is_sim_dir fs in2 then some RelValFunc.simDirs else func1
  match func2 with
  | none => ⟨true, some 1, false, none⟩
  | some f => ⟨false, none, !fs.outExists out, some f⟩

/-- A filesystem on which every test is false, used to instantiate the
invalid-input theorem on a concrete input. -/
def emptyFS : FS :=
  ⟨fun _ => false, fun _ => false, fun _ => false, fun _ => false⟩


theorem charListLe_trans : ∀ {x y z : List Char},
    charListLe x y = true → charListLe y z = true → charListLe x z = true := by
  intro x
  induction x with
  | nil => intro y z _ _; rfl
  | cons a as ih =>
    intro y z hxy hyz
    cases y with
    | nil => exact absurd hxy (by simp [charListLe])
    | cons b bs =>
      cases z with
      | nil => exact absurd hyz (by simp [charListLe])
      | cons c cs =>
        simp only [charListLe] at hxy hyz ⊢
        rcases lt_trichotomy a b with hab | hab | hab
        · rcases lt_trichotomy b c with hbc | hbc | hbc
          · rw [if_pos (lt_trans hab hbc)]
          · rw [if_pos (hbc ▸ hab)]
          · rw [if_neg (lt_asymm hbc), if_pos hbc] at hyz
            exact absurd hyz (by simp)
        · subst hab
          rw [if_neg (lt_irrefl a), if_neg (lt_irrefl a)] at hxy
          rcases lt_trichotomy a c with hac | hac | hac
          · rw [if_pos hac]
          · subst hac
            rw [if_neg (lt_irrefl a), if_neg (lt_irrefl a)] at hyz ⊢
            exact ih hxy hyz
          · rw [if_neg (lt_asymm hac), if_pos hac] at hyz
            exact absurd hyz (by simp)
        · rw [if_neg (lt_asymm hab), if_pos hab] at hxy
          exact absurd hxy (by simp)

theorem charListLe_total : ∀ (x y : List Char),
    (charListLe x y || charListLe y x) = true := by
  intro x
  induction x with
  | nil => intro y; simp [charListLe]
  | cons a as ih =>
    intro y
    cases y with
    | nil => simp [charListLe]
    | cons b bs =>
      simp only [charListLe]
      rcases lt_trichotomy a b with hab | hab | hab
      · rw [if_pos hab]; rfl
      · subst hab
        rw [if_neg (lt_irrefl a), if_neg (lt_irrefl a), if_neg (lt_irrefl a),
          if_neg (lt_irrefl a)]
        exact ih bs
      · rw [if_neg (lt_asymm hab), if_pos hab, if_pos hab]; rfl

theorem strLeP_trans : ∀ (a b c : String), strLeP a b → strLeP b c → strLeP a c :=
  fun _ _ _ hab hbc => charListLe_trans hab hbc

theorem strLeP_total : ∀ (a b : String), strLeP a b ∨ strLeP b a := by
  intro a b
  have h : charListLe a.toList b.toList = true ∨ charListLe b.toList a.toList = true := by
    simpa using charListLe_total a.toList b.toList
  exact h

theorem sorted_sortStrs (l : List String) : List.Sorted strLeP (sortStrs l) :=
  @List.sorted_insertionSort String strLeP strLeP.instDecidableRel ⟨strLeP_total⟩
    ⟨strLeP_trans⟩ l

theorem mem_sortStrs {a : String} {l : List String} : a ∈ sortStrs l ↔ a ∈ l :=
  (List.perm_insertionSort strLeP l).mem_iff

theorem nodup_sortStrs {l : List String} (h : l.Nodup) : (sortStrs l).Nodup :=
  (List.perm_insertionSort strLeP l).nodup_iff.mpr h


theorem find_mutual_files_pair (d1 d2 : String) (l1 l2 : List String) (grep : List String) :
    find_mutual_files [(d1, l1), (d2, l2)] grep =
      sortStrs (if grep.isEmpty
        then (((sortStrs l1).map (stripDir d1)).filter
                (fun x => decide (x ∈ (sortStrs l2).map (stripDir d2)))).dedup
        else grep.flatMap (fun g =>
          ((((sortStrs l1).map (stripDir d1)).filter
              (fun x => decide (x ∈ (sortStrs l2).map (stripDir d2)))).dedup).filter
            (fun ic => strContains ic g))) := rfl

theorem find_mutual_files_props (d1 d2 : String) (l1 l2 : List String) (grep : List String) :
    List.Sorted strLeP (find_mutual_files [(d1, l1), (d2, l2)] grep)
    ∧ (∀ x ∈ find_mutual_files [(d1, l1), (d2, l2)] grep,
        x ∈ (sortStrs l1).map (stripDir d1) ∧ x ∈ (sortStrs l2).map (stripDir d2))
    ∧ (grep = [] → (find_mutual_files [(d1, l1), (d2, l2)] grep).Nodup)
    ∧ (grep ≠ [] → ∀ x, x ∈ find_mutual_files [(d1, l1), (d2, l2)] grep ↔
        (x ∈ (sortStrs l1).map (stripDir d1) ∧ x ∈ (sortStrs l2).map (stripDir d2)
          ∧ ∃ g ∈ grep, strContains x g = true)) := by
  rw [find_mutual_files_pair]
  refine ⟨sorted_sortStrs _, ?_, ?_, ?_⟩
  · intro x hx
    rw [mem_sortStrs] at hx
    by_cases hg : grep.isEmpty
    · rw [if_pos hg] at hx
      simp only [List.mem_dedup, List.mem_filter, decide_eq_true_eq] at hx
      exact hx
    · rw [if_neg hg] at hx
      simp only [List.mem_flatMap, List.mem_filter, List.mem_dedup, decide_eq_true_eq] at hx
      obtain ⟨g, _, ⟨hx1, hx2⟩, _⟩ := hx
      exact ⟨hx1, hx2⟩
  · intro hg
    subst hg
    simp only [List.isEmpty_nil, if_true]
    exact (List.perm_insertionSort strLeP _).nodup_iff.mpr (List.nodup_dedup _)
  · intro hg x
    rw [mem_sortStrs, if_neg (by simpa using hg)]
    simp only [List.mem_flatMap, List.mem_filter, List.mem_dedup, decide_eq_true_eq]
    constructor
    · rintro ⟨g, hgm, ⟨hx1, hx2⟩, hc⟩
      exact ⟨hx1, hx2, g, hgm, hc⟩
    · rintro ⟨hx1, hx2, g, hgm, hc⟩
      exact ⟨g, hgm, ⟨hx1, hx2⟩, hc⟩

theorem combos_mem {n : ℕ} {i j : ℕ} : (i, j) ∈ combos n ↔ i < j ∧ j < n := by
  simp only [combos, List.mem_flatMap, List.mem_map, List.mem_range, List.mem_range'_1,
    Prod.mk.injEq]
  constructor
  · rintro ⟨a, ha, b, ⟨hb1, hb2⟩, rfl, rfl⟩
    omega
  · rintro ⟨hij, hjn⟩
    exact ⟨i, by omega, j, ⟨by omega, by omega⟩, rfl, rfl⟩

theorem edtGo_eq_filter (sizes : List ℚ) (t : ℚ) :
    ∀ l : List (ℕ × ℕ), (∀ p ∈ l, sizes.getD p.2 0 ≠ 0) →
      edtGo sizes t l = some (l.filter
        (fun p => decide (|sizes.getD p.1 0 - sizes.getD p.2 0| / sizes.getD p.2 0 > t))) := by
  intro l
  induction l with
  | nil => intro _; rfl
  | cons p rest ih =>
    intro h
    have hp : sizes.getD p.2 0 ≠ 0 := h p (List.mem_cons_self p rest)
    have hr := ih (fun q hq => h q (List.mem_cons_of_mem p hq))
    simp only [edtGo]
    rw [if_neg hp]
    by_cases hc : |sizes.getD p.1 0 - sizes.getD p.2 0| / sizes.getD p.2 0 > t
    · rw [if_pos (Or.inl hc), hr, List.filter_cons_of_pos (by simp only [decide_eq_true_eq]; exact hc)]
      rfl
    · rw [if_neg (fun hor => hc (hor.elim id id)), hr, List.filter_cons_of_neg (by simp only [decide_eq_true_eq]; exact hc)]


theorem has_severity_eq_any (summary : List (String × List String)) (sev : List String) :
    has_severity summary sev = sev.any (fun s =>
      match summary.lookup s with
      | none => false
      | some names => !names.isEmpty) := by
  have gen : ∀ (l : List String) (b : Bool),
      List.foldl (fun ret s =>
        match summary.lookup s with
        | none => ret
        | some names => if names.isEmpty then ret else true) b l
      = (b || l.any (fun s =>
          match summary.lookup s with
          | none => false
          | some names => !names.isEmpty)) := by
    intro l
    induction l with
    | nil => intro b; simp
    | cons s rest ih =>
      intro b
      rw [List.foldl_cons, List.any_cons, ih, ← Bool.or_assoc]
      congr 1
      cases hl : summary.lookup s with
      | none => simp
      | some names => cases hn : names.isEmpty <;> simp [hn]
  simpa [has_severity] using gen sev false

/-- C5: has_severity returns true exactly when at least one requested severity
is present in the test summary with a non-empty item list; in particular for
the summary mapping BAD to the single item h1, requesting BAD yields true and
requesting GOOD yields false. -/
theorem has_severity_iff_nonempty_requested (summary : List (String × List String))
    (sev : List String) :
    (has_severity summary sev = true ↔
      ∃ s ∈ sev, ∃ names, summary.lookup s = some names ∧ names ≠ [])
    ∧ has_severity [("BAD", ["h1"])] ["BAD"] = true
    ∧ has_severity [("BAD", ["h1"])] ["GOOD"] = false := by
  refine ⟨?_, by decide, by decide⟩
  rw [has_severity_eq_any, List.any_eq_true]
  constructor
  · rintro ⟨s, hs, hp⟩
    cases hl : summary.lookup s with
    | none => rw [hl] at hp; exact absurd hp (by simp)
    | some names =>
      rw [hl] at hp
      refine ⟨s, hs, names, hl, ?_⟩
      simpa using hp
  · rintro ⟨s, hs, names, hl, hne⟩
    refine ⟨s, hs, ?_⟩
    rw [hl]
    simpa using hne


/-- C1: evaluation of the chain preparation of rel_val_ttree at a concrete
failing input.  In the grouped branch, side A is chained from paths under
dir1 and side B from paths under dir2, as the claim states; but in the
ungrouped branch the source joins the files of BOTH sides under dir1
(line 309), so side B is chained from A/x.root instead of B/x.root. -/
theorem rel_val_ttree_chain_sides :
    rel_val_ttree_chains "A" "B" ["x.root"] ["x"] =
      [(ChainSpec.group ["A/x.root"], ChainSpec.group ["B/x.root"], "x_dir")]
    ∧ rel_val_ttree_chains "A" "B" ["x.root"] [] =
      [(ChainSpec.single "A/x.root", ChainSpec.single "A/x.root", "x.root_dir")] :=
  ⟨by decide, by decide⟩

/-- C2: evaluation of exceeding_difference_thresh at the zero-size edge
cases.  A zero in the denominator position makes the code raise
ZeroDivisionError (modelled by none): the nonzero-vs-zero pair [5, 0] and
the zero-vs-zero pair [0, 0] both raise instead of being handled, while the
zero-vs-nonzero pair [0, 5] happens to be flagged because its denominator is
the nonzero entry.  The claim that the function is total and guards the
zero denominator does not hold on the code. -/
theorem exceeding_difference_thresh_zero_denominator :
    exceeding_difference_thresh [5, 0] (1/10) = none
    ∧ exceeding_difference_thresh [0, 0] (1/10) = none
    ∧ exceeding_difference_thresh [0, 5] (1/10) = some [(0, 1)] := by
  refine ⟨?_, ?_, ?_⟩ <;> norm_num [exceeding_difference_thresh, combos, edtGo]

/-- C3 counterexample: with a child exit status of 1, rel_val_files does not
return the exit status of the spawned comparison process. -/
theorem rel_val_files_ret_ne_child_exit : ¬((rel_val_files 1).ret = 1) := by decide

/-- C3 amended: rel_val_files spawns the external comparison process and
waits for it, but returns 0 unconditionally, regardless of the exit status
of the child. -/
theorem rel_val_files_returns_zero (childExit : Int) :
    (rel_val_files childExit).spawned = true
    ∧ (rel_val_files childExit).waited = true
    ∧ (rel_val_files childExit).ret = 0 :=
  ⟨rfl, rfl, rfl⟩

/-- C4 counterexample: with matched listings whose single relative name xy
contains both filter substrings x and y, the result of find_mutual_files
lists the entry twice, so it is not duplicate-free as the claim states. -/
theorem find_mutual_files_duplicate_counterexample :
    find_mutual_files [("a", ["a/xy"]), ("b", ["b/xy"])] ["x", "y"] = ["xy", "xy"]
    ∧ ¬(find_mutual_files [("a", ["a/xy"]), ("b", ["b/xy"])] ["x", "y"]).Nodup :=
  ⟨by decide, by decide⟩

/-- C4 amended: the result of find_mutual_files is sorted and every element
lies in the relative-name intersection of the two listings; without filters
it is also duplicate-free, and with a non-empty filter set its elements are
exactly the intersection entries containing at least one filter substring —
but an entry containing several filter substrings is listed once per
matching filter, so duplicates can occur. -/
theorem find_mutual_files_sorted_subset_filter (d1 d2 : String) (l1 l2 : List String)
    (grep : List String) :
    List.Sorted strLeP (find_mutual_files [(d1, l1), (d2, l2)] grep)
    ∧ (∀ x ∈ find_mutual_files [(d1, l1), (d2, l2)] grep,
        x ∈ (sortStrs l1).map (stripDir d1) ∧ x ∈ (sortStrs l2).map (stripDir d2))
    ∧ (grep = [] → (find_mutual_files [(d1, l1), (d2, l2)] grep).Nodup)
    ∧ (grep ≠ [] → ∀ x, x ∈ find_mutual_files [(d1, l1), (d2, l2)] grep ↔
        (x ∈ (sortStrs l1).map (stripDir d1) ∧ x ∈ (sortStrs l2).map (stripDir d2)
          ∧ ∃ g ∈ grep, strContains x g = true)) :=
  find_mutual_files_props d1 d2 l1 l2 grep

/-- C4 witness: the amended theorem applied at a concrete input. -/
theorem find_mutual_files_sorted_subset_filter_witness :
    List.Sorted strLeP (find_mutual_files [("a", ["a/xy"]), ("b", ["b/xy"])] ["x"])
    ∧ (∀ x ∈ find_mutual_files [("a", ["a/xy"]), ("b", ["b/xy"])] ["x"],
        x ∈ (sortStrs ["a/xy"]).map (stripDir "a") ∧ x ∈ (sortStrs ["b/xy"]).map (stripDir "b"))
    ∧ ((["x"] : List String) = [] → (find_mutual_files [("a", ["a/xy"]), ("b", ["b/xy"])] ["x"]).Nodup)
    ∧ ((["x"] : List String) ≠ [] → ∀ x, x ∈ find_mutual_files [("a", ["a/xy"]), ("b", ["b/xy"])] ["x"] ↔
        (x ∈ (sortStrs ["a/xy"]).map (stripDir "a") ∧ x ∈ (sortStrs ["b/xy"]).map (stripDir "b")
          ∧ ∃ g ∈ (["x"] : List String), strContains x g = true)) :=
  find_mutual_files_sorted_subset_filter "a" "b" ["a/xy"] ["b/xy"] ["x"]

/-- C6: in directory mode, when none of the five category flags is enabled,
all five category sub-pipelines execute; when at least one flag is enabled,
exactly the categories of the enabled flags execute. -/
theorem rel_val_sim_dirs_default_flags (f : SimFlags) :
    (anyFlag f = false →
      executedCategories f = ["hits", "tpctracks", "kine", "analysis", "qc"])
    ∧ (anyFlag f = true → executedCategories f = catList f) := by
  obtain ⟨a, b, c, d, e⟩ := f
  cases a <;> cases b <;> cases c <;> cases d <;> cases e <;> decide

/-- C6 witness: the theorem applied with no flag set and with one flag set,
with the hypotheses discharged. -/
theorem rel_val_sim_dirs_default_flags_witness :
    executedCategories ⟨false, false, false, false, false⟩ =
      ["hits", "tpctracks", "kine", "analysis", "qc"]
    ∧ executedCategories ⟨true, false, false, false, false⟩ =
      catList ⟨true, false, false, false, false⟩ :=
  ⟨(rel_val_sim_dirs_default_flags ⟨false, false, false, false, false⟩).1 (by decide),
   (rel_val_sim_dirs_default_flags ⟨true, false, false, false, false⟩).2 (by decide)⟩

/-- C7: when the two inputs are neither both existing files nor both valid
simulation directories, rel_val prints the error message, returns 1 (hence a
non-zero value), runs no sub-function, and does not touch the output
directory. -/
theorem rel_val_invalid_input (fs : FS) (in1 in2 out : String)
    (h1 : ¬(fs.isfile in1 = true ∧ fs.isfile in2 = true))
    (h2 : ¬(is_sim_dir fs in1 = true ∧ is_sim_dir fs in2 = true)) :
    (rel_val fs in1 in2 out).printedInputError = true
    ∧ (rel_val fs in1 in2 out).retCode = some 1
    ∧ (rel_val fs in1 in2 out).retCode ≠ some 0
    ∧ (rel_val fs in1 in2 out).touchedOutput = false
    ∧ (rel_val fs in1 in2 out).ranFunc = none := by
  have hb1 : ¬((fs.isfile in1 && fs.isfile in2) = true) := by
    simpa [Bool.and_eq_true] using h1
  have hb2 : ¬((is_sim_dir fs in1 && is_sim_dir fs in2) = true) := by
    simpa [Bool.and_eq_true] using h2
  have e : rel_val fs in1 in2 out = ⟨true, some 1, false, none⟩ := by
    simp only [rel_val]
    rw [if_neg hb2, if_neg hb1]
  rw [e]
  exact ⟨rfl, rfl, by decide, rfl, rfl⟩

/-- C7 witness: the theorem applied to a filesystem on which every test
fails, with the hypotheses discharged. -/
theorem rel_val_invalid_input_witness :
    (¬(emptyFS.isfile "x" = true ∧ emptyFS.isfile "y" = true))
    ∧ (¬(is_sim_dir emptyFS "x" = true ∧ is_sim_dir emptyFS "y" = true))
    ∧ ((rel_val emptyFS "x" "y" "o").printedInputError = true
      ∧ (rel_val emptyFS "x" "y" "o").retCode = some 1
      ∧ (rel_val emptyFS "x" "y" "o").retCode ≠ some 0
      ∧ (rel_val emptyFS "x" "y" "o").touchedOutput = false
      ∧ (rel_val emptyFS "x" "y" "o").ranFunc = none) :=
  ⟨by decide, by decide, rel_val_invalid_input emptyFS "x" "y" "o" (by decide) (by decide)⟩

/-- C8: for the size list [100, 105, 300] and threshold 0.1 exactly the
pairs (0,2) and (1,2) are flagged, and in general, whenever every size is
nonzero, the loop completes and a pair (i, j) is flagged exactly when the
relative difference against size j exceeds the threshold. -/
theorem exceeding_difference_thresh_spec (sizes : List ℚ) (t : ℚ)
    (h : ∀ x ∈ sizes, x ≠ 0) :
    exceeding_difference_thresh [100, 105, 300] (1/10) = some [(0, 2), (1, 2)]
    ∧ ∃ l, exceeding_difference_thresh sizes t = some l
        ∧ ∀ i j : ℕ, ((i, j) ∈ l ↔ i < j ∧ j < sizes.length
            ∧ |sizes.getD i 0 - sizes.getD j 0| / sizes.getD j 0 > t) := by
  constructor
  · norm_num [exceeding_difference_thresh, combos, edtGo]
  · have hd : ∀ p ∈ combos sizes.length, sizes.getD p.2 0 ≠ 0 := by
      intro p hp
      rcases p with ⟨i, j⟩
      have h2 := (combos_mem.mp hp).2
      have hm : sizes.getD j 0 ∈ sizes := by
        rw [List.getD_eq_getElem?_getD, List.getElem?_eq_getElem h2]
        exact List.getElem_mem h2
      exact h _ hm
    refine ⟨_, edtGo_eq_filter sizes t _ hd, ?_⟩
    intro i j
    simp only [List.mem_filter, combos_mem, decide_eq_true_eq]
    constructor
    · rintro ⟨⟨hij, hjn⟩, hc⟩
      exact ⟨hij, hjn, hc⟩
    · rintro ⟨hij, hjn, hc⟩
      exact ⟨⟨hij, hjn⟩, hc⟩

/-- C8 witness: the theorem applied at the size list of the claim, with the
nonzero hypothesis discharged. -/
theorem exceeding_difference_thresh_spec_witness :
    (∀ x ∈ [(100 : ℚ), 105, 300], x ≠ 0)
    ∧ (exceeding_difference_thresh [100, 105, 300] (1/10) = some [(0, 2), (1, 2)]
      ∧ ∃ l, exceeding_difference_thresh [(100 : ℚ), 105, 300] (1/10) = some l
          ∧ ∀ i j : ℕ, ((i, j) ∈ l ↔ i < j ∧ j < [(100 : ℚ), 105, 300].length
              ∧ |[(100 : ℚ), 105, 300].getD i 0 - [(100 : ℚ), 105, 300].getD j 0|
                  / [(100 : ℚ), 105, 300].getD j 0 > 1/10)) :=
  ⟨by norm_num, exceeding_difference_thresh_spec [100, 105, 300] (1/10) (by norm_num)⟩

/-- C9 counterexample: a field whose side-A fill succeeds but whose side-B
fill fails is not skipped — it is written to the first output, and an
unfilled entry for it is written to the second output. -/
theorem make_generic_histograms_sideB_failure_written :
    make_generic_histograms_from_chain [⟨"f", "Int_t"⟩] [⟨"f", "Int_t"⟩]
        (fun _ => 0) (fun _ => -1) = (["f"], [("f", false)])
    ∧ ("f", false) ∈ (make_generic_histograms_from_chain [⟨"f", "Int_t"⟩] [⟨"f", "Int_t"⟩]
        (fun _ => 0) (fun _ => -1)).2 :=
  ⟨by decide, by decide⟩

/-- C9 amended: a field whose side-A fill fails is skipped on both sides and
the remaining fields are still processed; a field whose side-A fill succeeds
is written to both outputs even when its side-B fill fails — the side-B
failure is not detected, leaving an unfilled side-B artifact instead of
skipping the field. -/
theorem make_generic_histograms_membership (leaves1 leaves2 : List Leaf)
    (draw1 draw2 : String → Int) (b : String) :
    (b ∈ (make_generic_histograms_from_chain leaves1 leaves2 draw1 draw2).1 ↔
      b ∈ effectiveBranches leaves1 leaves2 ∧ draw1 b ≠ -1)
    ∧ ((b, true) ∈ (make_generic_histograms_from_chain leaves1 leaves2 draw1 draw2).2 ↔
      (b ∈ effectiveBranches leaves1 leaves2 ∧ draw1 b ≠ -1 ∧ draw2 b ≠ -1))
    ∧ ((b, false) ∈ (make_generic_histograms_from_chain leaves1 leaves2 draw1 draw2).2 ↔
      (b ∈ effectiveBranches leaves1 leaves2 ∧ draw1 b ≠ -1 ∧ draw2 b = -1)) := by
  simp only [make_generic_histograms_from_chain, List.mem_map, List.mem_filter,
    decide_eq_true_eq, decide_eq_false_iff_not, not_not, Prod.mk.injEq]
  refine ⟨?_, ?_, ?_⟩ <;> aesop

/-- C10: for the empty sequence of input locations, find_mutual_files is
total and returns the empty list, whatever the filter set. -/
theorem find_mutual_files_empty_locations (grep : List String) :
    find_mutual_files [] grep = [] := rfl

end RelVal
